import Mathlib

/-
Verification of the biaplotter artist core (src/biaplotter/artists.py).

Point coordinates and per-point feature values are modelled as exact
rationals; numpy float arrays become Lists, `None` becomes `Option`, and
a NaN grid cell becomes `none`.  The property setters of the `Scatter`
and `Histogram2D` artists are modelled as functions from an explicit
state record to a new state together with a list of observable events
(signal emissions, warnings, image removals and draws); Python
exceptions become `Except.error`.
-/

/-- Point in the plane, one row of the `(N, 2)` data array. -/
abbrev Pt := ℚ × ℚ

/-- RGBA colour value. -/
abbrev Rgba := ℚ × ℚ × ℚ × ℚ

/-- Minimum of a list of rationals, `np.min`/`np.nanmin` of a NaN-free
non-empty array.  The Python code only ever applies it to non-empty data;
for `[]` the (never used) head default `0` is returned. -/
def listMin (l : List ℚ) : ℚ := l.foldl min (l.headD 0)

/-- Maximum of a list of rationals, `np.max` of a non-empty array. -/
def listMax (l : List ℚ) : ℚ := l.foldl max (l.headD 0)

/-- Range of one axis as computed by `np.histogram2d`: the bounding
interval of the values, expanded by `0.5` on each side when it is
degenerate (all values equal), which is numpy's documented behaviour. -/
def axisRange (vals : List ℚ) : ℚ × ℚ :=
  let lo := listMin vals
  let hi := listMax vals
  if lo = hi then (lo - 1/2, hi + 1/2) else (lo, hi)

/-- Axis range of the x coordinates of a point list. -/
def xRange (data : List Pt) : ℚ × ℚ := axisRange (data.map Prod.fst)

/-- Axis range of the y coordinates of a point list. -/
def yRange (data : List Pt) : ℚ × ℚ := axisRange (data.map Prod.snd)

/-- The `i`-th bin edge of the uniform binning produced by
`np.histogram2d(..., bins=n)`, i.e. `np.linspace lo hi (n+1) !! i`. -/
def edgeAt (lo hi : ℚ) (n i : ℕ) : ℚ := lo + i * ((hi - lo) / n)

/-- Membership of a coordinate in the half-open interval
`[edges[i], edges[i+1])`, the test of artists.py lines 727-728
(`x_min <= x < x_max`). -/
def inPatchB (lo hi : ℚ) (n i : ℕ) (x : ℚ) : Bool :=
  decide (edgeAt lo hi n i ≤ x) && decide (x < edgeAt lo hi n (i + 1))

/-- Bin membership rule of `np.histogram2d` itself: half-open intervals
`[edges[i], edges[i+1])` for every bin except the last, which is closed
`[edges[n-1], edges[n]]`, so the maximum-valued point is counted in the
last bin. -/
def inBinB (lo hi : ℚ) (n i : ℕ) (x : ℚ) : Bool :=
  decide (edgeAt lo hi n i ≤ x) &&
    (if i = n - 1 then decide (x ≤ edgeAt lo hi n n)
     else decide (x < edgeAt lo hi n (i + 1)))

/-- Entry `(i, j)` of the counts matrix of
`np.histogram2d(value[:, 0], value[:, 1], bins=n)` (artists.py line 430). -/
def histCount (data : List Pt) (n : ℕ) (i j : ℕ) : ℕ :=
  (data.filter (fun p =>
    inBinB (xRange data).1 (xRange data).2 n i p.1 &&
    inBinB (yRange data).1 (yRange data).2 n j p.2)).length

/-- Result of `np.argwhere(histogram > threshold)` (artists.py line 715):
the bins whose count exceeds the threshold, in row-major order. -/
def exceedingBins (data : List Pt) (n : ℕ) (t : ℤ) : List (ℕ × ℕ) :=
  ((List.range n) ×ˢ (List.range n)).filter
    (fun b => decide (t < (histCount data n b.1 b.2 : ℤ)))

/-- Test of artists.py lines 727-728: point number `k` of `data` lies in
patch `(i, j)` under the half-open re-derivation. -/
def pointInPatch (data : List Pt) (n : ℕ) (i j k : ℕ) : Bool :=
  inPatchB (xRange data).1 (xRange data).2 n i (data.getD k (0, 0)).1 &&
  inPatchB (yRange data).1 (yRange data).2 n j (data.getD k (0, 0)).2

/-- Embedding of `Histogram2D.indices_in_patches_above_threshold`
(artists.py lines 697-731): for every bin exceeding the threshold, in
`np.argwhere` order, collect (in index order) the points falling inside
that bin's half-open interval, and concatenate. -/
def indices_in_patches_above_threshold (data : List Pt) (n : ℕ) (t : ℤ) :
    List ℕ :=
  (exceedingBins data n t).flatMap (fun b =>
    (List.range data.length).filter (fun k => pointInPatch data n b.1 b.2 k))

/-- Concrete sample data set: two points, the second sitting exactly on
the maximum x and y bin edges. -/
def sampleData : List Pt := [(0, 0), (1, 1)]

/-- Result of `np.digitize(x, edges, right=False)` for the uniform edge
vector of `n` bins: the number of edges that are `≤ x`, i.e. the index of
the first edge strictly greater than `x`. -/
def digitizeCount (lo hi : ℚ) (n : ℕ) (x : ℚ) : ℕ :=
  ((List.range (n + 1)).filter (fun i => decide (edgeAt lo hi n i ≤ x))).length

/-- Bin index assignment of artists.py lines 506-510:
`(np.digitize(value, edges, right=False) - 1).clip(0, len(edges) - 2)`.
Natural subtraction truncates at `0` exactly like the lower clip. -/
def binIndexClip (lo hi : ℚ) (n : ℕ) (x : ℚ) : ℕ :=
  min (digitizeCount lo hi n x - 1) (n - 1)

/-- Insertion of a value into a sorted list of rationals. -/
def insSorted (x : ℚ) : List ℚ → List ℚ
  | [] => [x]
  | y :: ys => if x ≤ y then x :: y :: ys else y :: insSorted x ys

/-- Insertion sort of a list of rationals. -/
def sortQ (l : List ℚ) : List ℚ := l.foldr insSorted []

/-- Median of a list of rationals with numpy's convention: middle element
of the sorted list for odd length, mean of the two middle elements for
even length. -/
def medianQ (l : List ℚ) : ℚ :=
  let s := sortQ l
  if l.length % 2 = 1 then s.getD (l.length / 2) 0
  else (s.getD (l.length / 2 - 1) 0 + s.getD (l.length / 2) 0) / 2

/-- Per-bin member list: the feature values of the points assigned to bin
`(i, j)`, in input order.  This is the grouping the median branch of
`_calculate_statistic_histogram` builds with its `defaultdict` loop. -/
def binEntries (pts : List (ℕ × ℕ × ℚ)) (i j : ℕ) : List ℚ :=
  (pts.filter (fun e => decide (e.1 = i ∧ e.2.1 = j))).map (fun e => e.2.2)

/-- One step of the sum-statistic loop of artists.py lines 777-782: add
the feature into the running per-cell sum and mark the per-cell touched
flag.  (The `np.isnan(sums[x, y])` guard of line 778 is dead code: the
sums array is zero-initialized and never holds NaN.) -/
def sumStep (sf : ((ℕ × ℕ) → ℚ) × ((ℕ × ℕ) → Bool)) (e : ℕ × ℕ × ℚ) :
    ((ℕ × ℕ) → ℚ) × ((ℕ × ℕ) → Bool) :=
  (fun p => if p = (e.1, e.2.1) then sf.1 p + e.2.2 else sf.1 p,
   fun p => if p = (e.1, e.2.1) then true else sf.2 p)

/-- The sum-statistic loop over all points: per-cell sums and per-cell
touched flags. -/
def sumLoop (pts : List (ℕ × ℕ × ℚ)) : ((ℕ × ℕ) → ℚ) × ((ℕ × ℕ) → Bool) :=
  pts.foldl sumStep (fun _ => 0, fun _ => false)

/-- One step of the mean-statistic loop of artists.py lines 761-765: add
the feature into the per-cell sum and bump the per-cell count. -/
def meanStep (sc : ((ℕ × ℕ) → ℚ) × ((ℕ × ℕ) → ℚ)) (e : ℕ × ℕ × ℚ) :
    ((ℕ × ℕ) → ℚ) × ((ℕ × ℕ) → ℚ) :=
  (fun p => if p = (e.1, e.2.1) then sc.1 p + e.2.2 else sc.1 p,
   fun p => if p = (e.1, e.2.1) then sc.2 p + 1 else sc.2 p)

/-- The mean-statistic loop over all points: per-cell sums and counts. -/
def meanLoop (pts : List (ℕ × ℕ × ℚ)) : ((ℕ × ℕ) → ℚ) × ((ℕ × ℕ) → ℚ) :=
  pts.foldl meanStep (fun _ => 0, fun _ => 0)

/-- The three aggregate statistics of `_calculate_statistic_histogram`. -/
inductive StatKind
  | mean
  | median
  | sum
deriving DecidableEq

/-- Embedding of `Histogram2D._calculate_statistic_histogram` (artists.py
lines 733-785).  The grid is `height × width` with
`height = max(x_indices) + 1` and `width = max(y_indices) + 1` (lines
755-756; `List.foldl Nat.max 0` equals Python's `max` on the non-empty
index arrays the callers pass).  A cell holds `none` where the Python
array holds NaN.  `zip` truncates to the shortest input exactly like
Python's `zip`. -/
def calculate_statistic_histogram (x_indices y_indices : List ℕ)
    (features : List ℚ) (stat : StatKind) : List (List (Option ℚ)) :=
  let height := x_indices.foldl Nat.max 0 + 1
  let width := y_indices.foldl Nat.max 0 + 1
  let pts := x_indices.zip (y_indices.zip features)
  (List.range height).map (fun i => (List.range width).map (fun j =>
    match stat with
    | .mean =>
        if (meanLoop pts).2 (i, j) ≠ 0 then
          some ((meanLoop pts).1 (i, j) / (meanLoop pts).2 (i, j))
        else none
    | .median =>
        if binEntries pts i j = [] then none
        else some (medianQ (binEntries pts i j))
    | .sum =>
        if (sumLoop pts).2 (i, j) then some ((sumLoop pts).1 (i, j))
        else none))

/-- Test of artists.py line 514: `np.all(np.isnan(statistic_histogram))`. -/
def gridAllNone (g : List (List (Option ℚ))) : Bool :=
  g.all (fun row => row.all (fun c => c.isNone))

/-- Transposition `histogram_data.T` of artists.py line 963. -/
def transposeGrid (g : List (List (Option ℚ))) : List (List (Option ℚ)) :=
  (List.range (g.headD []).length).map (fun j => g.map (fun row => row.getD j none))

/-- NaN handling of `_histogram2D_array_to_rgba` (artists.py lines
943-973): the transposed grid is mapped through the colormap (`colorOf`,
whose numeric behaviour is not value-modelled here) and every NaN cell is
set to the fully transparent colour `(0, 0, 0, 0)` (line 972). -/
def histogramArrayToRgba (g : List (List (Option ℚ))) (colorOf : ℚ → Rgba) :
    List (List Rgba) :=
  (transposeGrid g).map (fun row => row.map (fun c =>
    match c with
    | none => ((0 : ℚ), (0 : ℚ), (0 : ℚ), (0 : ℚ))
    | some v => colorOf v))

/-- Log branch of the `Scatter.color_indices` setter (artists.py lines
258-265): the lower normalization bound is `np.nanmin(indices)` clamped
up to `0.01` when non-positive, every entry `≤ 0` of the indices array is
then clamped in place to that bound, and the warning of lines 263-264 is
emitted unconditionally in this branch (recorded by the final flag).
Result: (lower bound, clamped array, warning emitted). -/
def scatterLogAdjust (indices : List ℚ) : ℚ × List ℚ × Bool :=
  let m := listMin indices
  let mv := if m ≤ 0 then 1/100 else m
  (mv, indices.map (fun x => if x ≤ 0 then mv else x), true)

/-- Defined (non-NaN) entries of a grid, in row-major order. -/
def definedEntries (g : List (List (Option ℚ))) : List ℚ :=
  g.flatMap (fun row => row.filterMap id)

/-- Result of `np.nanmin` on a grid with NaN cells: the minimum over the
defined entries. -/
def gridNanMin (g : List (List (Option ℚ))) : ℚ := listMin (definedEntries g)

/-- Log branch of
`Histogram2D._handle_norm_method_for_continuous_colormap` (artists.py
lines 877-884): identical clamping applied to the histogram or statistic
grid; NaN cells are untouched because `NaN <= 0` is false in numpy.
Result: (lower bound, clamped grid, warning emitted). -/
def histLogAdjust (g : List (List (Option ℚ))) :
    ℚ × List (List (Option ℚ)) × Bool :=
  let m := gridNanMin g
  let mv := if m ≤ 0 then 1/100 else m
  (mv, g.map (fun row => row.map (fun c =>
    c.map (fun x => if x ≤ 0 then mv else x))), true)

/-- The four normalization methods of `_normalization_methods`
(artists.py lines 137-138). -/
inductive NormMethod
  | linear
  | log
  | symlog
  | centered
deriving DecidableEq

/-- Marker size state of a Scatter artist: a scalar or a per-point
array. -/
inductive SizeVal
  | scalar (s : ℚ)
  | sizes (l : List ℚ)
deriving DecidableEq

/-- Value assigned to `color_indices`: a scalar or an array, each
carrying its numpy dtype's integer flag (dtype is a property of the
array, not of the stored values). -/
inductive CIVal
  | scalar (c : ℚ) (isInt : Bool)
  | arr (l : List ℚ) (isInt : Bool)
deriving DecidableEq

/-- Observable events of the Scatter setters: signal emissions, warnings
and rendering calls.  `setFaceColors` carries the per-point RGBA colours
when the overlay colormap is categorical; for a continuous colormap the
colour interpolation of matplotlib is not value-modelled and the event
`setFaceColorsCont` only records that the colours were recomputed. -/
inductive SEvent
  | dataChanged
  | ciChanged
  | warnMsg
  | setFaceColors (cs : List Rgba)
  | setFaceColorsCont
  | drawEv
deriving DecidableEq

/-- State of a `Scatter` artist (artists.py lines 89-340): the stored
data and colour indices, the dtype flag of the stored indices array, the
colour normalization method, the overlay colormap (its `categorical` flag
and its colour table), whether the matplotlib scatter object has been
created yet (`self._scatter is not None`), and the marker size. -/
structure ScatterState where
  data : Option (List Pt)
  color_indices : Option (List ℚ)
  ciIntDtype : Bool
  normMethod : NormMethod
  categorical : Bool
  palette : List Rgba
  scatterExists : Bool
  size : SizeVal
deriving DecidableEq

/-- Affine map of matplotlib's `Normalize(vmin, vmax)`. -/
def normalizeVal (vmin vmax x : ℚ) : ℚ := (x - vmin) / (vmax - vmin)

/-- Modelled from matplotlib's `ListedColormap` lookup: a normalized
position `v` selects colour `floor(v * N)` clipped into `[0, N-1]`; with
the default under/over colours, positions below `0` give the first entry
and positions at or above `1` the last. -/
def listedLookup (palette : List Rgba) (v : ℚ) : Rgba :=
  palette.getD (min (Int.toNat ⌊v * palette.length⌋) (palette.length - 1))
    (0, 0, 0, 0)

/-- Broadcast step at the top of both `color_indices` setters (artists.py
lines 238-239 and 497-498): `np.full(len(self._data), indices)` for a
scalar raises `TypeError` (here `none`) when the stored data is `None`;
an array value passes through. -/
def broadcastCI (data : Option (List Pt)) : CIVal → Option (List ℚ × Bool)
  | .scalar c isInt =>
    match data with
    | none => none
    | some d => some (List.replicate d.length c, isInt)
  | .arr l isInt => some (l, isInt)

/-- Body of the `Scatter.color_indices` setter after broadcast (artists.py
lines 240-281).  The indices are stored; if the scatter object exists the
colours are recomputed: a categorical colormap warns on non-integer dtype
and on a non-linear method (forcing the method to linear) and maps each
index through `Normalize(0, N)` and the palette; a continuous colormap in
log mode warns and clamps the stored array in place via
`scatterLogAdjust`; finally the changed signal is emitted and a redraw
requested. -/
def scatterApplyCI (st : ScatterState) (indices : List ℚ) (isInt : Bool) :
    ScatterState × List SEvent :=
  let st1 := { st with color_indices := some indices, ciIntDtype := isInt }
  if st1.scatterExists then
    if st1.categorical then
      let w1 : List SEvent := if isInt then [] else [.warnMsg]
      let w2 : List SEvent := if st1.normMethod = .linear then [] else [.warnMsg]
      let st2 := if st1.normMethod = .linear then st1
                 else { st1 with normMethod := .linear }
      let colors := indices.map (fun x =>
        listedLookup st1.palette (normalizeVal 0 st1.palette.length x))
      (st2, w1 ++ w2 ++ [SEvent.setFaceColors colors, .ciChanged, .drawEv])
    else
      match st1.normMethod with
      | .log =>
          ({ st1 with color_indices := some (scatterLogAdjust indices).2.1 },
            [.warnMsg, .setFaceColorsCont, .ciChanged, .drawEv])
      | _ => (st1, [.setFaceColorsCont, .ciChanged, .drawEv])
  else (st1, [.ciChanged, .drawEv])

/-- The `Scatter.color_indices` setter (artists.py lines 234-281). -/
def scatterSetColorIndices (st : ScatterState) (v : CIVal) :
    Except Unit (ScatterState × List SEvent) :=
  match broadcastCI st.data v with
  | none => .error ()
  | some (indices, isInt) => .ok (scatterApplyCI st indices isInt)

/-- Result of `np.resize(l, N)`: cyclic repetition of the (non-empty)
array truncated to length `N`. -/
def npResize (l : List ℚ) (N : ℕ) : List ℚ :=
  (List.range N).map (fun k => l.getD (k % l.length) 0)

/-- Slice assignment `color_indices[M:] = 0` of artists.py lines 186-187
and 445-446: every entry at position `≥ M` becomes `0`. -/
def zeroFillFrom (l : List ℚ) (M : ℕ) : List ℚ :=
  match l, M with
  | [], _ => []
  | _ :: xs, 0 => 0 :: zeroFillFrom xs 0
  | x :: xs, m + 1 => x :: zeroFillFrom xs m

/-- The `Scatter.data` setter (artists.py lines 162-190).  `None` and
empty input return without any change or signal.  Otherwise the data is
stored, `data_changed_signal` is emitted, the scatter object is created
on first use (setting default colour index `0`), then the colour indices
are defaulted to `0` if unset or resized to the new length with new
positions zero-filled, the marker size is reset to the scalar `50`, and a
redraw is requested.  (Intermediate draw-idle requests of the nested
setters are coalesced into the events their branches append.) -/
def scatterSetData (st0 : ScatterState) (value : Option (List Pt)) :
    Except Unit (ScatterState × List SEvent) :=
  match value with
  | none => .ok (st0, [])
  | some v =>
    if v.length = 0 then .ok (st0, [])
    else
      let st1 := { st0 with data := some v }
      match (if st1.scatterExists then
               .ok ((st1, []) : ScatterState × List SEvent)
             else
               scatterSetColorIndices { st1 with scatterExists := true }
                 (.scalar 0 true)) with
      | .error e => .error e
      | .ok (st2, evs2) =>
        match (match st2.color_indices with
               | none => scatterSetColorIndices st2 (.scalar 0 true)
               | some ci =>
                   scatterSetColorIndices st2
                     (.arr (zeroFillFrom (npResize ci v.length) ci.length)
                       st2.ciIntDtype)) with
        | .error e => .error e
        | .ok (st3, evs3) =>
            .ok ({ st3 with size := .scalar 50 },
              [SEvent.dataChanged] ++ evs2 ++ evs3 ++ [SEvent.drawEv])

/-- Observable events of the Histogram2D setters: signal emissions and
image removals/draws.  The RGBA values of the images and the warnings of
the normalization helpers are not value-modelled here (they are covered
by the standalone `histLogAdjust`/`histogramArrayToRgba` embeddings). -/
inductive HEvent
  | dataChanged
  | removeBase
  | drawBase
  | removeOverlay
  | drawOverlay
  | ciChanged
  | drawIdle
deriving DecidableEq

/-- State of a `Histogram2D` artist (artists.py lines 343-977): the
stored data and colour indices (with dtype flag), the bin count, the
stored `_histogram`'s x and y edge ranges (`none` while no data was ever
set, in which case reading `self._histogram` raises `AttributeError`),
and whether the base counts image and the overlay image currently
exist. -/
structure HistState where
  data : Option (List Pt)
  bins : ℕ
  color_indices : Option (List ℚ)
  ciIntDtype : Bool
  hist : Option ((ℚ × ℚ) × (ℚ × ℚ))
  baseImg : Bool
  overlayImg : Bool
deriving DecidableEq

/-- The `Histogram2D.color_indices` setter (artists.py lines 493-523):
broadcast (raising on a scalar with no data), store the indices, remove
the existing overlay image if present, digitize the data into bin
indices, compute the median statistic grid, and draw a new overlay only
when the grid has a defined cell; finally emit the changed signal and
request a redraw.  Reading a missing `_histogram` or digitizing missing
data raises (`.error`). -/
def histSetColorIndices (st : HistState) (v : CIVal) :
    Except Unit (HistState × List HEvent) :=
  match broadcastCI st.data v with
  | none => .error ()
  | some (indices, isInt) =>
    let st1 := { st with
      color_indices := some indices, ciIntDtype := isInt,
      overlayImg := false }
    let evs1 : List HEvent := if st.overlayImg then [.removeOverlay] else []
    match st.hist, st.data with
    | some ((loX, hiX), (loY, hiY)), some d =>
      let xb := d.map (fun p => binIndexClip loX hiX st.bins p.1)
      let yb := d.map (fun p => binIndexClip loY hiY st.bins p.2)
      let stat := calculate_statistic_histogram xb yb indices .median
      if gridAllNone stat then
        .ok (st1, evs1 ++ [HEvent.ciChanged, HEvent.drawIdle])
      else
        .ok ({ st1 with overlayImg := true },
          evs1 ++ [HEvent.drawOverlay, HEvent.ciChanged, HEvent.drawIdle])
    | _, _ => .error ()

/-- The `Histogram2D.data` setter (artists.py lines 416-448).  `None` and
empty input return without any change or signal.  Otherwise the data is
stored, `data_changed_signal` is emitted, the existing base counts image
is removed, the histogram is recomputed and the base image redrawn, and
the colour indices are defaulted to `0` if unset or resized to the new
length with new positions zero-filled (which redraws the overlay through
the `color_indices` setter). -/
def histSetData (st0 : HistState) (value : Option (List Pt)) :
    Except Unit (HistState × List HEvent) :=
  match value with
  | none => .ok (st0, [])
  | some v =>
    if v.length = 0 then .ok (st0, [])
    else
      let st1 := { st0 with data := some v }
      let evs1 : List HEvent :=
        [HEvent.dataChanged] ++ (if st0.baseImg then [HEvent.removeBase] else [])
      let st2 := { st1 with
        hist := some (axisRange (v.map Prod.fst), axisRange (v.map Prod.snd)),
        baseImg := true }
      match (match st2.color_indices with
             | none => histSetColorIndices st2 (.scalar 0 true)
             | some ci =>
                 histSetColorIndices st2
                   (.arr (zeroFillFrom (npResize ci v.length) ci.length)
                     st2.ciIntDtype)) with
      | .error e => .error e
      | .ok (st3, evs3) =>
          .ok (st3, evs1 ++ [HEvent.drawBase] ++ evs3 ++ [HEvent.drawIdle])

/-- Concrete Scatter state in log normalization mode with a continuous
colormap, one data point and colour index `5`. -/
def logScatterState : ScatterState :=
  { data := some [(0, 0)], color_indices := some [5], ciIntDtype := true,
    normMethod := .log, categorical := false, palette := [],
    scatterExists := true, size := .scalar 50 }

/-- Concrete Scatter state with a categorical three-colour palette. -/
def catScatterState : ScatterState :=
  { data := some [(0, 0), (1, 1)], color_indices := some [0, 0],
    ciIntDtype := true, normMethod := .linear, categorical := true,
    palette := [(1, 0, 0, 1), (0, 1, 0, 1), (0, 0, 1, 1)],
    scatterExists := true, size := .scalar 50 }

/-- Concrete Scatter state with two stored colour indices `[7, 8]`. -/
def catScatterState78 : ScatterState :=
  { catScatterState with color_indices := some [7, 8] }

/-- Concrete Scatter state whose data was never set. -/
def noDataScatterState : ScatterState :=
  { data := none, color_indices := none, ciIntDtype := true,
    normMethod := .linear, categorical := true, palette := [],
    scatterExists := false, size := .scalar 50 }

/-- Concrete Histogram2D state with one data point, one bin, and an
existing overlay image. -/
def baseHistState : HistState :=
  { data := some [(0, 0)], bins := 1, color_indices := some [0],
    ciIntDtype := true,
    hist := some ((-(1/2 : ℚ), (1/2 : ℚ)), (-(1/2 : ℚ), (1/2 : ℚ))),
    baseImg := true, overlayImg := true }

/-- Concrete Histogram2D state whose data was never set. -/
def noDataHistState : HistState :=
  { data := none, bins := 20, color_indices := none, ciIntDtype := true,
    hist := none, baseImg := false, overlayImg := false }

/-- Lower bound of a min-fold: `l.foldl min a ≤ a`. -/
theorem foldl_min_le_init : ∀ (l : List ℚ) (a : ℚ), l.foldl min a ≤ a := by
  intro l
  induction l with
  | nil => intro a; simp
  | cons x xs ih =>
    intro a
    calc (x :: xs).foldl min a = xs.foldl min (min a x) := rfl
    _ ≤ min a x := ih (min a x)
    _ ≤ a := min_le_left a x

/-- The min-fold is below every member of the list. -/
theorem foldl_min_le_mem : ∀ (l : List ℚ) (a x : ℚ), x ∈ l → l.foldl min a ≤ x := by
  intro l
  induction l with
  | nil => intro a x hx; simp at hx
  | cons y ys ih =>
    intro a x hx
    rcases List.mem_cons.mp hx with h | h
    · subst h
      calc (x :: ys).foldl min a = ys.foldl min (min a x) := rfl
      _ ≤ min a x := foldl_min_le_init ys (min a x)
      _ ≤ x := min_le_right a x
    · exact ih (min a y) x h

/-- Upper bound of a max-fold: `a ≤ l.foldl max a`. -/
theorem init_le_foldl_max : ∀ (l : List ℚ) (a : ℚ), a ≤ l.foldl max a := by
  intro l
  induction l with
  | nil => intro a; simp
  | cons x xs ih =>
    intro a
    calc a ≤ max a x := le_max_left a x
    _ ≤ xs.foldl max (max a x) := ih (max a x)
    _ = (x :: xs).foldl max a := rfl

/-- Every member of the list is below the max-fold. -/
theorem mem_le_foldl_max : ∀ (l : List ℚ) (a x : ℚ), x ∈ l → x ≤ l.foldl max a := by
  intro l
  induction l with
  | nil => intro a x hx; simp at hx
  | cons y ys ih =>
    intro a x hx
    rcases List.mem_cons.mp hx with h | h
    · subst h
      calc x ≤ max a x := le_max_right a x
      _ ≤ ys.foldl max (max a x) := init_le_foldl_max ys (max a x)
      _ = (x :: ys).foldl max a := rfl
    · exact ih (max a y) x h

/-- The list minimum is below every member. -/
theorem listMin_le_mem {l : List ℚ} {x : ℚ} (hx : x ∈ l) : listMin l ≤ x :=
  foldl_min_le_mem l (l.headD 0) x hx

/-- Every member is below the list maximum. -/
theorem mem_le_listMax {l : List ℚ} {x : ℚ} (hx : x ∈ l) : x ≤ listMax l :=
  mem_le_foldl_max l (l.headD 0) x hx

/-- For a non-empty list the minimum is at most the maximum. -/
theorem listMin_le_listMax {l : List ℚ} (hl : l ≠ []) : listMin l ≤ listMax l := by
  match l, hl with
  | x :: xs, _ =>
    exact le_trans (listMin_le_mem (List.mem_cons_self x xs))
      (mem_le_listMax (List.mem_cons_self x xs))

/-- The axis range of a non-empty value list is a proper interval. -/
theorem axisRange_fst_lt_snd {vals : List ℚ} (h : vals ≠ []) :
    (axisRange vals).1 < (axisRange vals).2 := by
  simp only [axisRange]
  by_cases heq : listMin vals = listMax vals
  · rw [if_pos heq]
    simp only []
    linarith
  · rw [if_neg heq]
    exact lt_of_le_of_ne (listMin_le_listMax h) heq

/-- The lower end of the axis range is below every member of the list. -/
theorem axisRange_fst_le_mem {vals : List ℚ} {x : ℚ} (hx : x ∈ vals) :
    (axisRange vals).1 ≤ x := by
  simp only [axisRange]
  by_cases heq : listMin vals = listMax vals
  · rw [if_pos heq]
    have h1 := listMin_le_mem hx
    simp only []
    linarith
  · rw [if_neg heq]
    exact listMin_le_mem hx

/-- Strict monotonicity of the uniform bin edges. -/
theorem edgeAt_strictMono {lo hi : ℚ} {n : ℕ} (hlt : lo < hi) (hn : 0 < n)
    {i j : ℕ} (hij : i < j) : edgeAt lo hi n i < edgeAt lo hi n j := by
  unfold edgeAt
  have hd : (0 : ℚ) < (hi - lo) / n := by
    apply div_pos (by linarith)
    exact_mod_cast hn
  have : (i : ℚ) < (j : ℚ) := by exact_mod_cast hij
  nlinarith

/-- Monotonicity of the uniform bin edges. -/
theorem edgeAt_mono {lo hi : ℚ} {n : ℕ} (hlt : lo < hi) (hn : 0 < n)
    {i j : ℕ} (hij : i ≤ j) : edgeAt lo hi n i ≤ edgeAt lo hi n j := by
  rcases lt_or_eq_of_le hij with h | h
  · exact le_of_lt (edgeAt_strictMono hlt hn h)
  · subst h; exact le_refl _

/-- The half-open patches along one axis are pairwise disjoint: a
coordinate lies in at most one of them. -/
theorem inPatchB_unique {lo hi : ℚ} {n : ℕ} (hlt : lo < hi) (hn : 0 < n)
    {i j : ℕ} {x : ℚ} (hi' : inPatchB lo hi n i x = true)
    (hj' : inPatchB lo hi n j x = true) : i = j := by
  unfold inPatchB at hi' hj'
  simp only [Bool.and_eq_true, decide_eq_true_eq] at hi' hj'
  rcases lt_trichotomy i j with h | h | h
  · exfalso
    have h1 : edgeAt lo hi n (i + 1) ≤ edgeAt lo hi n j := edgeAt_mono hlt hn h
    linarith [hi'.2, hj'.1]
  · exact h
  · exfalso
    have h1 : edgeAt lo hi n (j + 1) ≤ edgeAt lo hi n i := edgeAt_mono hlt hn h
    linarith [hi'.1, hj'.2]

/-- Existence of a half-open patch for any coordinate strictly below the
final edge: discrete intermediate value over the edges. -/
theorem exists_patch {lo hi : ℚ} {n : ℕ} {x : ℚ}
    (h0 : edgeAt lo hi n 0 ≤ x) :
    ∀ m : ℕ, x < edgeAt lo hi n m → ∃ i < m, inPatchB lo hi n i x = true := by
  intro m
  induction m with
  | zero => intro hm; exact absurd hm (not_lt.mpr h0)
  | succ m ih =>
    intro hm
    by_cases hcase : edgeAt lo hi n m ≤ x
    · refine ⟨m, Nat.lt_succ_self m, ?_⟩
      unfold inPatchB
      simp only [Bool.and_eq_true, decide_eq_true_eq]
      exact ⟨hcase, hm⟩
    · obtain ⟨i, hi1, hi2⟩ := ih (not_le.mp hcase)
      exact ⟨i, Nat.lt_succ_of_lt hi1, hi2⟩

/-- Characterization of membership in the result of
`indices_in_patches_above_threshold`: an index is returned exactly when
some bin whose count exceeds the threshold contains its point under the
half-open membership test. -/
theorem mem_indices_in_patches (data : List Pt) (n : ℕ) (t : ℤ) (k : ℕ) :
    k ∈ indices_in_patches_above_threshold data n t ↔
      k < data.length ∧ ∃ i j : ℕ, i < n ∧ j < n ∧
        t < (histCount data n i j : ℤ) ∧ pointInPatch data n i j k = true := by
  unfold indices_in_patches_above_threshold exceedingBins
  simp only [List.mem_flatMap, List.mem_filter, List.mem_range,
    decide_eq_true_eq]
  constructor
  · rintro ⟨⟨i, j⟩, ⟨hmem, hcnt⟩, hk, hp⟩
    have hm := List.mem_product.mp hmem
    exact ⟨hk, i, j, List.mem_range.mp hm.1, List.mem_range.mp hm.2, hcnt, hp⟩
  · rintro ⟨hk, i, j, hi, hj, hcnt, hp⟩
    exact ⟨(i, j),
      ⟨List.mem_product.mpr ⟨List.mem_range.mpr hi, List.mem_range.mpr hj⟩, hcnt⟩,
      hk, hp⟩

/-- Sum of a list of naturals each at most one, with at most one of them
non-zero, is at most one. -/
theorem sum_map_le_one {β : Type} (f : β → ℕ) :
    ∀ l : List β, (∀ b ∈ l, f b ≤ 1) →
      (∀ b ∈ l, ∀ b' ∈ l, f b ≠ 0 → f b' ≠ 0 → b = b') → l.Nodup →
      (l.map f).sum ≤ 1 := by
  intro l
  induction l with
  | nil => intro _ _ _; simp
  | cons b rest ih =>
    intro h1 h2 hnd
    simp only [List.map_cons, List.sum_cons]
    by_cases hfb : f b = 0
    · rw [hfb, Nat.zero_add]
      exact ih (fun x hx => h1 x (List.mem_cons_of_mem b hx))
        (fun x hx y hy => h2 x (List.mem_cons_of_mem b hx) y (List.mem_cons_of_mem b hy))
        (List.nodup_cons.mp hnd).2
    · have hfb1 : f b ≤ 1 := h1 b (List.mem_cons_self b rest)
      have hrest : (rest.map f).sum = 0 := by
        apply List.sum_eq_zero
        intro x hx
        obtain ⟨b', hb', rfl⟩ := List.mem_map.mp hx
        by_contra hne
        have heq := h2 b (List.mem_cons_self b rest) b'
          (List.mem_cons_of_mem b hb') hfb hne
        exact (List.nodup_cons.mp hnd).1 (heq ▸ hb')
      omega

/-- Each index occurs at most once in the result of
`indices_in_patches_above_threshold`: distinct exceeding bins have
disjoint half-open patches, and within a bin point indices are listed
without repetition. -/
theorem count_indices_in_patches_le_one (data : List Pt) (n : ℕ) (t : ℤ)
    (hn : 0 < n) (hd : data ≠ []) (k : ℕ) :
    (indices_in_patches_above_threshold data n t).count k ≤ 1 := by
  have hx : (xRange data).1 < (xRange data).2 := by
    apply axisRange_fst_lt_snd
    simpa using hd
  have hy : (yRange data).1 < (yRange data).2 := by
    apply axisRange_fst_lt_snd
    simpa using hd
  unfold indices_in_patches_above_threshold
  rw [List.count_flatMap]
  apply sum_map_le_one
  · intro b _
    have hnd : ((List.range data.length).filter
        (fun k' => pointInPatch data n b.1 b.2 k')).Nodup :=
      List.Nodup.filter _ (List.nodup_range data.length)
    exact List.nodup_iff_count_le_one.mp hnd k
  · intro b hb b' hb' hcb hcb'
    have hkb : k ∈ (List.range data.length).filter
        (fun k' => pointInPatch data n b.1 b.2 k') := by
      by_contra hc
      exact hcb (List.count_eq_zero.mpr hc)
    have hkb' : k ∈ (List.range data.length).filter
        (fun k' => pointInPatch data n b'.1 b'.2 k') := by
      by_contra hc
      exact hcb' (List.count_eq_zero.mpr hc)
    have hpb := (List.mem_filter.mp hkb).2
    have hpb' := (List.mem_filter.mp hkb').2
    unfold pointInPatch at hpb hpb'
    simp only [Bool.and_eq_true] at hpb hpb'
    have h1 : b.1 = b'.1 := inPatchB_unique hx hn hpb.1 hpb'.1
    have h2 : b.2 = b'.2 := inPatchB_unique hy hn hpb.2 hpb'.2
    exact Prod.ext h1 h2
  · exact List.Nodup.filter _
      (List.Nodup.product (List.nodup_range n) (List.nodup_range n))

/-- The first bin edge is the lower end of the axis range. -/
theorem edgeAt_zero (lo hi : ℚ) (n : ℕ) : edgeAt lo hi n 0 = lo := by
  unfold edgeAt
  norm_num

/-- Characterization of the result at threshold `-1`: since every count
exceeds `-1`, a point index is returned exactly when its coordinates lie
strictly below the final x and y bin edges. -/
theorem mem_indices_neg_one (data : List Pt) (n : ℕ) (hn : 0 < n)
    (hd : data ≠ []) (k : ℕ) (hk : k < data.length) :
    k ∈ indices_in_patches_above_threshold data n (-1) ↔
      (data.getD k (0, 0)).1 < edgeAt (xRange data).1 (xRange data).2 n n ∧
      (data.getD k (0, 0)).2 < edgeAt (yRange data).1 (yRange data).2 n n := by
  have hx : (xRange data).1 < (xRange data).2 := by
    apply axisRange_fst_lt_snd; simpa using hd
  have hy : (yRange data).1 < (yRange data).2 := by
    apply axisRange_fst_lt_snd; simpa using hd
  rw [mem_indices_in_patches]
  constructor
  · rintro ⟨-, i, j, hi, hj, -, hp⟩
    unfold pointInPatch at hp
    simp only [Bool.and_eq_true] at hp
    obtain ⟨hpx, hpy⟩ := hp
    unfold inPatchB at hpx hpy
    simp only [Bool.and_eq_true, decide_eq_true_eq] at hpx hpy
    constructor
    · exact lt_of_lt_of_le hpx.2 (edgeAt_mono hx hn (Nat.succ_le_of_lt hi))
    · exact lt_of_lt_of_le hpy.2 (edgeAt_mono hy hn (Nat.succ_le_of_lt hj))
  · rintro ⟨hltx, hlty⟩
    have hmem : data.getD k (0, 0) ∈ data := by
      rw [List.getD_eq_getElem data (0, 0) hk]
      exact List.getElem_mem hk
    have h0x : edgeAt (xRange data).1 (xRange data).2 n 0 ≤ (data.getD k (0, 0)).1 := by
      rw [edgeAt_zero]
      exact axisRange_fst_le_mem (List.mem_map_of_mem Prod.fst hmem)
    have h0y : edgeAt (yRange data).1 (yRange data).2 n 0 ≤ (data.getD k (0, 0)).2 := by
      rw [edgeAt_zero]
      exact axisRange_fst_le_mem (List.mem_map_of_mem Prod.snd hmem)
    obtain ⟨i, hi, hpi⟩ := exists_patch h0x n hltx
    obtain ⟨j, hj, hpj⟩ := exists_patch h0y n hlty
    refine ⟨hk, i, j, hi, hj, ?_, ?_⟩
    · exact lt_of_lt_of_le (by norm_num) (Int.natCast_nonneg _)
    · unfold pointInPatch
      simp only [Bool.and_eq_true]
      exact ⟨hpi, hpj⟩

/-- C1 (amended): for every non-empty point set and integer threshold `t`,
`indices_in_patches_above_threshold t` returns exactly the union, over all
histogram bins whose count exceeds `t`, of the indices of points whose
coordinates fall in that bin's half-open interval, each returned index
occurring at most once; at `t = -1` it returns exactly the indices of the
points lying strictly below the final x and y bin edges — points exactly
on the maximum bin edge, which `histogram2d` counts in the last bin, are
excluded. -/
theorem claim_C1_indices_in_patches_roundtrip (data : List Pt) (n : ℕ)
    (t : ℤ) (hn : 0 < n) (hd : data ≠ []) :
    (∀ k : ℕ, k ∈ indices_in_patches_above_threshold data n t ↔
       k < data.length ∧ ∃ i j : ℕ, i < n ∧ j < n ∧
         t < (histCount data n i j : ℤ) ∧ pointInPatch data n i j k = true)
    ∧ (∀ k : ℕ, (indices_in_patches_above_threshold data n t).count k ≤ 1)
    ∧ (∀ k : ℕ, k < data.length →
        (k ∈ indices_in_patches_above_threshold data n (-1) ↔
          (data.getD k (0, 0)).1 < edgeAt (xRange data).1 (xRange data).2 n n ∧
          (data.getD k (0, 0)).2 < edgeAt (yRange data).1 (yRange data).2 n n)) :=
  ⟨fun k => mem_indices_in_patches data n t k,
   fun k => count_indices_in_patches_le_one data n t hn hd k,
   fun k hk => mem_indices_neg_one data n hn hd k hk⟩

/-- C1 counterexample: on the two-point data set `[(0,0), (1,1)]` with two
bins, threshold `-1` does not return every point index — point `1` lies
exactly on the maximum bin edges and fails every half-open interval test,
although `histogram2d` counts it in the last bin. -/
theorem claim_C1_counterexample :
    ¬ (∀ k < sampleData.length,
        k ∈ indices_in_patches_above_threshold sampleData 2 (-1)) := by
  intro h
  have h1 := h 1 (by norm_num [sampleData])
  rw [mem_indices_neg_one sampleData 2 (by norm_num)
    (by simp [sampleData]) 1 (by norm_num [sampleData])] at h1
  norm_num [sampleData, xRange, yRange, axisRange, listMin, listMax,
    edgeAt] at h1

/-- C1 witness: the amended round-trip property instantiated on the
concrete sample data set with threshold `0`. -/
theorem claim_C1_witness :
    ((0 : ℕ) < 2 ∧ sampleData ≠ []) ∧
    ((∀ k : ℕ, k ∈ indices_in_patches_above_threshold sampleData 2 0 ↔
       k < sampleData.length ∧ ∃ i j : ℕ, i < 2 ∧ j < 2 ∧
         (0 : ℤ) < (histCount sampleData 2 i j : ℤ) ∧
         pointInPatch sampleData 2 i j k = true)
    ∧ (∀ k : ℕ, (indices_in_patches_above_threshold sampleData 2 0).count k ≤ 1)
    ∧ (∀ k : ℕ, k < sampleData.length →
        (k ∈ indices_in_patches_above_threshold sampleData 2 (-1) ↔
          (sampleData.getD k (0, 0)).1 <
            edgeAt (xRange sampleData).1 (xRange sampleData).2 2 2 ∧
          (sampleData.getD k (0, 0)).2 <
            edgeAt (yRange sampleData).1 (yRange sampleData).2 2 2))) :=
  ⟨⟨by norm_num, by simp [sampleData]⟩,
   claim_C1_indices_in_patches_roundtrip sampleData 2 0 (by norm_num)
     (by simp [sampleData])⟩

/-- Unfolding of the per-bin member list over a cons. -/
theorem binEntries_cons (e : ℕ × ℕ × ℚ) (rest : List (ℕ × ℕ × ℚ)) (i j : ℕ) :
    binEntries (e :: rest) i j =
      if e.1 = i ∧ e.2.1 = j then e.2.2 :: binEntries rest i j
      else binEntries rest i j := by
  by_cases h : e.1 = i ∧ e.2.1 = j
  · simp [binEntries, List.filter_cons, h]
  · simp [binEntries, List.filter_cons, h]

/-- The sum-statistic loop computes, in every cell, the sum of the member
features, and its touched flag records whether the member list is
non-empty. -/
theorem sum_foldl_spec :
    ∀ (pts : List (ℕ × ℕ × ℚ)) (sf : ((ℕ × ℕ) → ℚ) × ((ℕ × ℕ) → Bool))
      (i j : ℕ),
      (pts.foldl sumStep sf).1 (i, j) = sf.1 (i, j) + (binEntries pts i j).sum ∧
      (pts.foldl sumStep sf).2 (i, j) =
        (sf.2 (i, j) || !(binEntries pts i j).isEmpty) := by
  intro pts
  induction pts with
  | nil => intro sf i j; simp [binEntries]
  | cons e rest ih =>
    intro sf i j
    rw [List.foldl_cons]
    have h := ih (sumStep sf e) i j
    rw [binEntries_cons]
    by_cases hp : e.1 = i ∧ e.2.1 = j
    · rw [if_pos hp]
      have hij : (i, j) = (e.1, e.2.1) := by rw [hp.1, hp.2]
      have h1 : (sumStep sf e).1 (i, j) = sf.1 (i, j) + e.2.2 := by
        simp only [sumStep]
        rw [if_pos hij]
      have h2 : (sumStep sf e).2 (i, j) = true := by
        simp only [sumStep]
        rw [if_pos hij]
      constructor
      · rw [h.1, h1, List.sum_cons]; ring
      · rw [h.2, h2]; simp
    · rw [if_neg hp]
      have hij : (i, j) ≠ (e.1, e.2.1) := by
        intro hc
        exact hp ⟨(Prod.mk.injEq _ _ _ _ ▸ hc).1.symm, (Prod.mk.injEq _ _ _ _ ▸ hc).2.symm⟩
      have h1 : (sumStep sf e).1 (i, j) = sf.1 (i, j) := by
        simp only [sumStep]
        rw [if_neg hij]
      have h2 : (sumStep sf e).2 (i, j) = sf.2 (i, j) := by
        simp only [sumStep]
        rw [if_neg hij]
      exact ⟨by rw [h.1, h1], by rw [h.2, h2]⟩

/-- Indexing into a map over a range. -/
theorem getD_map_range {α : Type} (h : ℕ) (f : ℕ → α) (d : α) (i : ℕ)
    (hi : i < h) : (((List.range h).map f).getD i d) = f i := by
  rw [List.getD_eq_getElem _ d (by simpa using hi)]
  simp

/-- Indexing into a mapped list. -/
theorem getD_map {α β : Type} (l : List α) (f : α → β) (d : β) (d' : α)
    (i : ℕ) (hi : i < l.length) : (l.map f).getD i d = f (l.getD i d') := by
  rw [List.getD_eq_getElem _ d (by simpa using hi),
    List.getD_eq_getElem _ d' hi, List.getElem_map]

/-- The initial value bounds the max-fold from below. -/
theorem init_le_foldl_natMax : ∀ (l : List ℕ) (a : ℕ), a ≤ l.foldl Nat.max a := by
  intro l
  induction l with
  | nil => intro a; exact le_refl a
  | cons y ys ih =>
    intro a
    calc a ≤ Nat.max a y := Nat.le_max_left a y
    _ ≤ ys.foldl Nat.max (Nat.max a y) := ih (Nat.max a y)
    _ = (y :: ys).foldl Nat.max a := rfl

/-- A member of a list bounds the max-fold from below. -/
theorem le_foldl_natMax : ∀ (l : List ℕ) (a x : ℕ), x ∈ l → x ≤ l.foldl Nat.max a := by
  intro l
  induction l with
  | nil => intro a x hx; simp at hx
  | cons y ys ih =>
    intro a x hx
    rcases List.mem_cons.mp hx with h | h
    · subst h
      calc x ≤ Nat.max a x := Nat.le_max_right a x
      _ ≤ ys.foldl Nat.max (Nat.max a x) := init_le_foldl_natMax ys (Nat.max a x)
      _ = (x :: ys).foldl Nat.max a := rfl
    · exact ih (Nat.max a y) x h

/-- An upper bound of the initial value and all members bounds the
max-fold from above. -/
theorem foldl_natMax_le : ∀ (l : List ℕ) (a m : ℕ), a ≤ m → (∀ x ∈ l, x ≤ m) →
    l.foldl Nat.max a ≤ m := by
  intro l
  induction l with
  | nil => intro a m ha _; exact ha
  | cons y ys ih =>
    intro a m ha hall
    exact ih (Nat.max a y) m
      (Nat.max_le.mpr ⟨ha, hall y (List.mem_cons_self y ys)⟩)
      (fun x hx => hall x (List.mem_cons_of_mem y hx))

/-- The max-fold over `0` computes the maximum of a non-empty list of
naturals (Python's `max`). -/
theorem foldl_natMax_eq {l : List ℕ} {m : ℕ} (hm : m ∈ l)
    (hub : ∀ a ∈ l, a ≤ m) : l.foldl Nat.max 0 = m :=
  le_antisymm (foldl_natMax_le l 0 m (Nat.zero_le m) hub) (le_foldl_natMax l 0 m hm)

/-- Value of one cell of the sum-statistic grid, in terms of the per-bin
member list. -/
theorem calc_stat_sum_cell (xi yi : List ℕ) (features : List ℚ) (i j : ℕ)
    (hi : i < xi.foldl Nat.max 0 + 1) (hj : j < yi.foldl Nat.max 0 + 1) :
    ((calculate_statistic_histogram xi yi features .sum).getD i []).getD j none
      = if binEntries (xi.zip (yi.zip features)) i j = [] then none
        else some (binEntries (xi.zip (yi.zip features)) i j).sum := by
  have hs := sum_foldl_spec (xi.zip (yi.zip features))
    (fun _ => 0, fun _ => false) i j
  have h1 : (sumLoop (xi.zip (yi.zip features))).1 (i, j) =
      (binEntries (xi.zip (yi.zip features)) i j).sum := by
    unfold sumLoop
    rw [hs.1]
    ring
  have h2 : (sumLoop (xi.zip (yi.zip features))).2 (i, j) =
      !(binEntries (xi.zip (yi.zip features)) i j).isEmpty := by
    unfold sumLoop
    rw [hs.2]
    simp
  simp only [calculate_statistic_histogram]
  rw [getD_map_range _ _ _ i hi, getD_map_range _ _ _ j hj]
  rw [h2, h1]
  by_cases hbe : binEntries (xi.zip (yi.zip features)) i j = []
  · simp [hbe]
  · simp [hbe]

/-- An undefined grid cell becomes the fully transparent colour in the
output of the RGBA conversion (cells are transposed: grid cell `(i, j)`
lands at row `j`, column `i` of the image). -/
theorem rgba_cell_transparent (g : List (List (Option ℚ))) (colorOf : ℚ → Rgba)
    (i j : ℕ) (hi : i < g.length) (hj : j < (g.headD []).length)
    (hcell : (g.getD i []).getD j none = none) :
    ((histogramArrayToRgba g colorOf).getD j []).getD i (1, 1, 1, 1) =
      ((0 : ℚ), (0 : ℚ), (0 : ℚ), (0 : ℚ)) := by
  unfold histogramArrayToRgba transposeGrid
  rw [List.map_map]
  rw [getD_map_range _ _ _ j hj]
  simp only [Function.comp]
  rw [List.map_map]
  rw [getD_map g _ _ [] i hi]
  simp only [Function.comp]
  rw [hcell]

/-- Head of a map over a non-empty range. -/
theorem headD_map_range_succ {α : Type} (n : ℕ) (f : ℕ → α) (d : α) :
    (((List.range (n + 1)).map f).headD d) = f 0 := by
  rw [List.range_succ_eq_map]
  simp

/-- C5: with `statistic='sum'` a cell of the statistic grid is defined
(non-NaN) iff at least one point was assigned to it, its value is then
the sum of the member features (so members `[5, -5]` yield the defined
value `0`), and an undefined cell is rendered fully transparent by the
RGBA conversion. -/
theorem claim_C5_sum_statistic_touched (xi yi : List ℕ) (features : List ℚ)
    (i j : ℕ) (hi : i < xi.foldl Nat.max 0 + 1)
    (hj : j < yi.foldl Nat.max 0 + 1) :
    (((calculate_statistic_histogram xi yi features .sum).getD i []).getD j none
      = if binEntries (xi.zip (yi.zip features)) i j = [] then none
        else some (binEntries (xi.zip (yi.zip features)) i j).sum)
    ∧ (∀ colorOf : ℚ → Rgba,
        binEntries (xi.zip (yi.zip features)) i j = [] →
        ((histogramArrayToRgba (calculate_statistic_histogram xi yi features .sum)
            colorOf).getD j []).getD i (1, 1, 1, 1) =
          ((0 : ℚ), (0 : ℚ), (0 : ℚ), (0 : ℚ))) := by
  constructor
  · exact calc_stat_sum_cell xi yi features i j hi hj
  · intro colorOf hbe
    apply rgba_cell_transparent
    · simpa [calculate_statistic_histogram] using hi
    · have hhead : ((calculate_statistic_histogram xi yi features .sum).headD []).length
          = yi.foldl Nat.max 0 + 1 := by
        simp only [calculate_statistic_histogram]
        rw [headD_map_range_succ]
        simp
      rw [hhead]
      exact hj
    · rw [calc_stat_sum_cell xi yi features i j hi hj]
      simp [hbe]

/-- C5 witness: a bin receiving the feature values `[5, -5]` holds the
defined value `0`. -/
theorem claim_C5_witness :
    ((0 : ℕ) < [0, 0].foldl Nat.max 0 + 1 ∧
     (0 : ℕ) < [0, 0].foldl Nat.max 0 + 1) ∧
    ((calculate_statistic_histogram [0, 0] [0, 0] [5, -5] .sum).getD 0 []).getD 0 none
      = some 0 := by
  have h := claim_C5_sum_statistic_touched [0, 0] [0, 0] [5, -5] 0 0
    (by norm_num) (by norm_num)
  refine ⟨⟨by norm_num, by norm_num⟩, ?_⟩
  rw [h.1]
  have hbe : binEntries ([0, 0].zip ([0, 0].zip [5, -5])) 0 0 = [5, -5] := by
    norm_num [binEntries, List.filter_cons]
  rw [hbe, if_neg (by simp)]
  norm_num

/-- C6: for every non-empty pair of bin-index arrays the statistic grid
has shape `(max(x_bin_i) + 1, max(y_bin_i) + 1)`: it covers only the bins
up to the highest-indexed occupied bin. -/
theorem claim_C6_statistic_grid_shape (xi yi : List ℕ) (features : List ℚ)
    (stat : StatKind) (mx my : ℕ) (hmx : mx ∈ xi) (hmxub : ∀ a ∈ xi, a ≤ mx)
    (hmy : my ∈ yi) (hmyub : ∀ a ∈ yi, a ≤ my) :
    (calculate_statistic_histogram xi yi features stat).length = mx + 1 ∧
    ∀ row ∈ calculate_statistic_histogram xi yi features stat,
      row.length = my + 1 := by
  constructor
  · simp [calculate_statistic_histogram, foldl_natMax_eq hmx hmxub]
  · intro row hrow
    simp only [calculate_statistic_histogram, List.mem_map] at hrow
    obtain ⟨i, -, rfl⟩ := hrow
    simp [foldl_natMax_eq hmy hmyub]

/-- C6 witness: bin indices with maxima `2` and `1` in a `20`-bin
histogram produce a `3 × 2` statistic grid, smaller than the full
`bins × bins` extent. -/
theorem claim_C6_witness :
    ((2 ∈ [0, 2]) ∧ (∀ a ∈ [0, 2], a ≤ 2) ∧ (1 ∈ [1, 0]) ∧
      (∀ a ∈ [1, 0], a ≤ 1)) ∧
    ((calculate_statistic_histogram [0, 2] [1, 0] [5, -5] .median).length = 3 ∧
     ∀ row ∈ calculate_statistic_histogram [0, 2] [1, 0] [5, -5] .median,
       row.length = 2) :=
  ⟨⟨by decide, by decide, by decide, by decide⟩,
   claim_C6_statistic_grid_shape [0, 2] [1, 0] [5, -5] .median 2 1
     (by decide) (by decide) (by decide) (by decide)⟩

/-- A defined cell value is a member of the defined-entry list. -/
theorem mem_definedEntries {g : List (List (Option ℚ))}
    {row : List (Option ℚ)} {x : ℚ} (hrow : row ∈ g) (hx : some x ∈ row) :
    x ∈ definedEntries g := by
  unfold definedEntries
  rw [List.mem_flatMap]
  refine ⟨row, hrow, ?_⟩
  rw [List.mem_filterMap]
  exact ⟨some x, hx, rfl⟩

/-- C7: for log normalization on a continuous colormap (both the Scatter
`color_indices` path and the Histogram2D grid path): if the minimum of
the values is non-positive, the lower normalization bound is clamped to
`0.01`, every entry `≤ 0` is clamped in place to that floor, and a
warning is issued; if the minimum is positive, the values are left
unchanged. -/
theorem claim_C7_log_clamp (indices : List ℚ) (g : List (List (Option ℚ)))
    (hind : indices ≠ []) (hg : definedEntries g ≠ []) :
    ((listMin indices ≤ 0 →
        (scatterLogAdjust indices).1 = 1/100 ∧
        (scatterLogAdjust indices).2.1 =
          indices.map (fun x => if x ≤ 0 then (1/100 : ℚ) else x) ∧
        (scatterLogAdjust indices).2.2 = true)
     ∧ (0 < listMin indices → (scatterLogAdjust indices).2.1 = indices))
    ∧ ((gridNanMin g ≤ 0 →
        (histLogAdjust g).1 = 1/100 ∧
        (histLogAdjust g).2.1 =
          g.map (fun row => row.map (fun c =>
            c.map (fun x => if x ≤ 0 then (1/100 : ℚ) else x))) ∧
        (histLogAdjust g).2.2 = true)
     ∧ (0 < gridNanMin g → (histLogAdjust g).2.1 = g)) := by
  constructor
  · constructor
    · intro hm
      refine ⟨?_, ?_, rfl⟩
      · simp only [scatterLogAdjust]
        rw [if_pos hm]
      · simp only [scatterLogAdjust]
        rw [if_pos hm]
    · intro hm
      simp only [scatterLogAdjust]
      rw [if_neg (not_le.mpr hm)]
      have hall : ∀ x ∈ indices, (if x ≤ 0 then listMin indices else x) = x := by
        intro x hx
        rw [if_neg]
        intro hc
        have := listMin_le_mem hx
        linarith
      calc indices.map (fun x => if x ≤ 0 then listMin indices else x)
          = indices.map id := List.map_congr_left hall
      _ = indices := List.map_id indices
  · constructor
    · intro hm
      refine ⟨?_, ?_, rfl⟩
      · simp only [histLogAdjust]
        rw [if_pos hm]
      · simp only [histLogAdjust]
        rw [if_pos hm]
    · intro hm
      simp only [histLogAdjust]
      rw [if_neg (not_le.mpr hm)]
      have hrow : ∀ row ∈ g,
          row.map (fun c => c.map (fun x => if x ≤ 0 then gridNanMin g else x)) = row := by
        intro row hrowmem
        have hcell : ∀ c ∈ row,
            c.map (fun x => if x ≤ 0 then gridNanMin g else x) = c := by
          intro c hc
          cases c with
          | none => rfl
          | some x =>
            have hx : (if x ≤ 0 then gridNanMin g else x) = x := by
              rw [if_neg]
              intro hxle
              have hxmem : x ∈ definedEntries g := mem_definedEntries hrowmem hc
              have hle : gridNanMin g ≤ x := listMin_le_mem hxmem
              linarith
            simp [hx]
        calc row.map (fun c => c.map (fun x => if x ≤ 0 then gridNanMin g else x))
            = row.map id := List.map_congr_left hcell
        _ = row := List.map_id row
      calc g.map (fun row => row.map (fun c =>
              c.map (fun x => if x ≤ 0 then gridNanMin g else x)))
          = g.map id := List.map_congr_left hrow
      _ = g := List.map_id g

/-- C7 witness: the clamp behaviour on a concrete indices array with
minimum `-1` and a concrete grid with minimum `-2`. -/
theorem claim_C7_witness :
    (([(-1 : ℚ), 5] : List ℚ) ≠ [] ∧
     definedEntries [[some (-2 : ℚ), none], [some 3, some 0]] ≠ []) ∧
    ((listMin [(-1 : ℚ), 5] ≤ 0 →
        (scatterLogAdjust [(-1 : ℚ), 5]).1 = 1/100 ∧
        (scatterLogAdjust [(-1 : ℚ), 5]).2.1 =
          [(-1 : ℚ), 5].map (fun x => if x ≤ 0 then (1/100 : ℚ) else x) ∧
        (scatterLogAdjust [(-1 : ℚ), 5]).2.2 = true)
     ∧ (0 < listMin [(-1 : ℚ), 5] →
        (scatterLogAdjust [(-1 : ℚ), 5]).2.1 = [(-1 : ℚ), 5]))
    ∧ ((gridNanMin [[some (-2 : ℚ), none], [some 3, some 0]] ≤ 0 →
        (histLogAdjust [[some (-2 : ℚ), none], [some 3, some 0]]).1 = 1/100 ∧
        (histLogAdjust [[some (-2 : ℚ), none], [some 3, some 0]]).2.1 =
          [[some (-2 : ℚ), none], [some 3, some 0]].map (fun row => row.map (fun c =>
            c.map (fun x => if x ≤ 0 then (1/100 : ℚ) else x))) ∧
        (histLogAdjust [[some (-2 : ℚ), none], [some 3, some 0]]).2.2 = true)
     ∧ (0 < gridNanMin [[some (-2 : ℚ), none], [some 3, some 0]] →
        (histLogAdjust [[some (-2 : ℚ), none], [some 3, some 0]]).2.1 =
          [[some (-2 : ℚ), none], [some 3, some 0]])) :=
  ⟨⟨by simp, by simp [definedEntries]⟩,
   claim_C7_log_clamp [(-1 : ℚ), 5] [[some (-2 : ℚ), none], [some 3, some 0]]
     (by simp) (by simp [definedEntries])⟩

/-- C4: setting `data` to `None` or to an empty array on either artist is
a silent no-op: data, colour indices and all derived grids/images are
unchanged, no exception is raised, and no signal or other event is
emitted. -/
theorem claim_C4_empty_data_noop (sst : ScatterState) (hst : HistState) :
    scatterSetData sst none = .ok (sst, []) ∧
    scatterSetData sst (some []) = .ok (sst, []) ∧
    histSetData hst none = .ok (hst, []) ∧
    histSetData hst (some []) = .ok (hst, []) :=
  ⟨rfl, rfl, rfl, rfl⟩

/-- C10: if an artist's data has never been set, assigning a scalar to
`color_indices` raises an exception (the broadcast calls
`len(self._data)` on `None`) instead of being a no-op — on both
artists. -/
theorem claim_C10_scalar_requires_data (sst : ScatterState) (hst : HistState)
    (c : ℚ) (b : Bool) (hs : sst.data = none) (hh : hst.data = none) :
    scatterSetColorIndices sst (.scalar c b) = .error () ∧
    histSetColorIndices hst (.scalar c b) = .error () := by
  constructor
  · simp [scatterSetColorIndices, broadcastCI, hs]
  · simp [histSetColorIndices, broadcastCI, hh]

/-- C10 witness: the concrete never-rendered artist states raise on a
scalar assignment. -/
theorem claim_C10_witness :
    (noDataScatterState.data = none ∧ noDataHistState.data = none) ∧
    (scatterSetColorIndices noDataScatterState (.scalar 3 true) = .error () ∧
     histSetColorIndices noDataHistState (.scalar 3 true) = .error ()) :=
  ⟨⟨rfl, rfl⟩,
   claim_C10_scalar_requires_data noDataScatterState noDataHistState 3 true rfl rfl⟩

/-- The colour-indices setter body never changes the stored data. -/
theorem scatterApplyCI_data (st : ScatterState) (indices : List ℚ)
    (isInt : Bool) : (scatterApplyCI st indices isInt).1.data = st.data := by
  simp only [scatterApplyCI]
  repeat' split
  all_goals rfl

/-- The colour-indices setter body always stores some indices array. -/
theorem scatterApplyCI_ci_isSome (st : ScatterState) (indices : List ℚ)
    (isInt : Bool) :
    ∃ l, (scatterApplyCI st indices isInt).1.color_indices = some l := by
  simp only [scatterApplyCI]
  repeat' split
  all_goals exact ⟨_, rfl⟩

/-- Outside the log-on-continuous configuration the colour-indices setter
body stores the indices array unchanged. -/
theorem scatterApplyCI_ci (st : ScatterState) (indices : List ℚ)
    (isInt : Bool) (h : st.categorical = true ∨ st.normMethod ≠ .log) :
    (scatterApplyCI st indices isInt).1.color_indices = some indices := by
  simp only [scatterApplyCI]
  by_cases h1 : st.scatterExists
  · simp only [h1, if_true]
    by_cases h2 : st.categorical
    · simp only [h2, if_true]
      split
      · rfl
      · rfl
    · rcases h with hcat | hnl
      · exact absurd hcat (by simp [h2])
      · simp only [h2, if_false]
        cases hm : st.normMethod
        · rfl
        · exact absurd hm hnl
        · rfl
        · rfl
  · simp [h1]

/-- Scalar assignment to `Scatter.color_indices` with data present
broadcasts to a constant array. -/
theorem scatterSetCI_scalar_eq (st : ScatterState) (c : ℚ) (b : Bool)
    (d : List Pt) (hd : st.data = some d) :
    scatterSetColorIndices st (.scalar c b) =
      .ok (scatterApplyCI st (List.replicate d.length c) b) := by
  simp [scatterSetColorIndices, broadcastCI, hd]

/-- Array assignment to `Scatter.color_indices` never raises. -/
theorem scatterSetCI_arr_eq (st : ScatterState) (l : List ℚ) (b : Bool) :
    scatterSetColorIndices st (.arr l b) = .ok (scatterApplyCI st l b) := rfl

/-- C9: every successful assignment to `Scatter.data` resets the marker
size to the scalar `50`, whatever size (scalar or per-point array) was
stored before. -/
theorem claim_C9_size_reset (st : ScatterState) (v : List Pt) (hv : v ≠ []) :
    ∃ st' evs, scatterSetData st (some v) = .ok (st', evs) ∧
      st'.size = SizeVal.scalar 50 := by
  have hvl : ¬ v.length = 0 := by simpa [List.length_eq_zero] using hv
  simp only [scatterSetData]
  rw [if_neg hvl]
  by_cases hse : st.scatterExists
  · rw [if_pos (show ({ st with data := some v } : ScatterState).scatterExists = true from hse)]
    cases hci : st.color_indices with
    | none =>
      have hci' : ({ st with data := some v } : ScatterState).color_indices = none := hci
      simp only [hci']
      rw [scatterSetCI_scalar_eq _ 0 true v rfl]
      exact ⟨_, _, rfl, rfl⟩
    | some ci =>
      have hci' : ({ st with data := some v } : ScatterState).color_indices = some ci := hci
      simp only [hci']
      rw [scatterSetCI_arr_eq]
      exact ⟨_, _, rfl, rfl⟩
  · rw [if_neg (show ¬ ({ st with data := some v } : ScatterState).scatterExists = true from hse)]
    rw [scatterSetCI_scalar_eq _ 0 true v rfl]
    obtain ⟨l, hl⟩ := scatterApplyCI_ci_isSome
      { st with data := some v, scatterExists := true }
      (List.replicate v.length 0) true
    simp only [hl]
    rw [scatterSetCI_arr_eq]
    exact ⟨_, _, rfl, rfl⟩

/-- C9 witness: setting one point on the concrete categorical scatter
state resets the size to `50`. -/
theorem claim_C9_witness :
    (([((0 : ℚ), (0 : ℚ))] : List Pt) ≠ []) ∧
    (∃ st' evs,
      scatterSetData catScatterState (some [((0 : ℚ), (0 : ℚ))]) = .ok (st', evs) ∧
      st'.size = SizeVal.scalar 50) :=
  ⟨by simp, claim_C9_size_reset catScatterState _ (by simp)⟩

/-- Linear normalization with bounds `[0, N]` followed by the
ListedColormap lookup maps an integer index `i < N` exactly to palette
entry `i`. -/
theorem listedLookup_int (palette : List Rgba) (i : ℕ)
    (hK : 0 < palette.length) (hi : i < palette.length) :
    listedLookup palette (normalizeVal 0 palette.length i) =
      palette.getD i (0, 0, 0, 0) := by
  unfold listedLookup normalizeVal
  have hKQ : ((palette.length : ℚ)) ≠ 0 := by
    exact_mod_cast Nat.pos_iff_ne_zero.mp hK
  have harg : ((i : ℚ) - 0) / ((palette.length : ℚ) - 0) * (palette.length : ℚ)
      = (i : ℚ) := by
    field_simp
  rw [harg, Int.floor_natCast, Int.toNat_natCast]
  congr 1
  omega

/-- C8: on a Scatter artist with a categorical overlay colormap of size
`K`, linear normalization, and an integer indices array whose entries
all lie in `[0, K)`, no warning is issued and each point's RGBA colour is
exactly the palette entry at its index (the normalization used is linear
with bounds `[0, K]`). -/
theorem claim_C8_categorical_integer_indices (st : ScatterState) (l : List ℕ)
    (hse : st.scatterExists = true) (hcat : st.categorical = true)
    (hnm : st.normMethod = .linear) (hK : 0 < st.palette.length)
    (hlt : ∀ i ∈ l, i < st.palette.length) :
    scatterSetColorIndices st (.arr (l.map (Nat.cast : ℕ → ℚ)) true) =
      .ok ({ st with
              color_indices := some (l.map (Nat.cast : ℕ → ℚ)),
              ciIntDtype := true },
           [SEvent.setFaceColors (l.map (fun i => st.palette.getD i (0, 0, 0, 0))),
            SEvent.ciChanged, SEvent.drawEv]) := by
  have hcolors : (l.map (Nat.cast : ℕ → ℚ)).map
      (fun x => listedLookup st.palette (normalizeVal 0 st.palette.length x)) =
      l.map (fun i => st.palette.getD i (0, 0, 0, 0)) := by
    rw [List.map_map]
    apply List.map_congr_left
    intro i hi
    exact listedLookup_int st.palette i hK (hlt i hi)
  rw [scatterSetCI_arr_eq]
  simp only [scatterApplyCI, hse, hcat, hnm, if_true, hcolors]
  simp

/-- C8 witness: on the concrete three-colour categorical scatter state
the integer indices `[2, 0]` produce exactly palette entries `2` and `0`
with no warning. -/
theorem claim_C8_witness :
    (catScatterState.scatterExists = true ∧ catScatterState.categorical = true ∧
     catScatterState.normMethod = .linear ∧ 0 < catScatterState.palette.length ∧
     ∀ i ∈ [2, 0], i < catScatterState.palette.length) ∧
    scatterSetColorIndices catScatterState
        (.arr ([2, 0].map (Nat.cast : ℕ → ℚ)) true) =
      .ok ({ catScatterState with
              color_indices := some ([2, 0].map (Nat.cast : ℕ → ℚ)),
              ciIntDtype := true },
           [SEvent.setFaceColors
              ([2, 0].map (fun i => catScatterState.palette.getD i (0, 0, 0, 0))),
            SEvent.ciChanged, SEvent.drawEv]) :=
  ⟨⟨rfl, rfl, rfl, by norm_num [catScatterState], by norm_num [catScatterState]⟩,
   claim_C8_categorical_integer_indices catScatterState [2, 0] rfl rfl rfl
     (by norm_num [catScatterState]) (by norm_num [catScatterState])⟩

/-- `np.resize` produces the requested length. -/
theorem npResize_length (l : List ℚ) (N : ℕ) : (npResize l N).length = N := by
  simp [npResize]

/-- Zero-filling a suffix keeps the length. -/
theorem zeroFillFrom_length : ∀ (l : List ℚ) (M : ℕ),
    (zeroFillFrom l M).length = l.length := by
  intro l
  induction l with
  | nil => intro M; cases M <;> rfl
  | cons x xs ih =>
    intro M
    cases M with
    | zero => simp [zeroFillFrom, ih 0]
    | succ m => simp [zeroFillFrom, ih m]

/-- Entries of the result of `np.resize`. -/
theorem npResize_getD (l : List ℚ) (N k : ℕ) (hk : k < N) (d : ℚ) :
    (npResize l N).getD k d = l.getD (k % l.length) 0 := by
  unfold npResize
  exact getD_map_range N _ d k hk

/-- Entries of a zero-filled suffix. -/
theorem zeroFillFrom_getD : ∀ (l : List ℚ) (M k : ℕ) (d : ℚ), k < l.length →
    (zeroFillFrom l M).getD k d = if k < M then l.getD k d else 0 := by
  intro l
  induction l with
  | nil => intro M k d hk; simp at hk
  | cons x xs ih =>
    intro M k d hk
    cases M with
    | zero =>
      cases k with
      | zero => simp [zeroFillFrom]
      | succ kk =>
        simp only [zeroFillFrom, List.getD_cons_succ]
        rw [ih 0 kk d (by simpa using hk)]
        simp
    | succ m =>
      cases k with
      | zero => simp [zeroFillFrom]
      | succ kk =>
        simp only [zeroFillFrom, List.getD_cons_succ]
        rw [ih m kk d (by simpa using hk)]
        by_cases hkm : kk < m
        · rw [if_pos hkm, if_pos (Nat.succ_lt_succ hkm)]
        · rw [if_neg hkm, if_neg (by omega)]

/-- The resized-and-zero-filled colour index array of the data setters:
length `N`, old entries kept below the old length, and zeros above it. -/
theorem resized_spec (ci : List ℚ) (N : ℕ) (hci : ci ≠ []) :
    (zeroFillFrom (npResize ci N) ci.length).length = N ∧
    (∀ k d, ci.length ≤ k → k < N →
      (zeroFillFrom (npResize ci N) ci.length).getD k d = 0) ∧
    (∀ k d, k < ci.length → k < N →
      (zeroFillFrom (npResize ci N) ci.length).getD k d = ci.getD k d) := by
  refine ⟨by simp [zeroFillFrom_length, npResize_length], ?_, ?_⟩
  · intro k d hk1 hk2
    rw [zeroFillFrom_getD _ _ _ d (by rw [npResize_length]; exact hk2)]
    rw [if_neg (by omega)]
  · intro k d hk1 hk2
    rw [zeroFillFrom_getD _ _ _ d (by rw [npResize_length]; exact hk2)]
    rw [if_pos hk1, npResize_getD _ _ _ hk2]
    rw [Nat.mod_eq_of_lt hk1]
    rw [List.getD_eq_getElem _ 0 hk1, List.getD_eq_getElem _ d hk1]

/-- Array assignment to `Histogram2D.color_indices` with data and
histogram present succeeds and stores the array unchanged. -/
theorem histSetCI_arr (st : HistState) (l : List ℚ) (b : Bool)
    (d : List Pt) (loX hiX loY hiY : ℚ)
    (hd : st.data = some d) (hh : st.hist = some ((loX, hiX), (loY, hiY))) :
    ∃ st' evs, histSetColorIndices st (.arr l b) = .ok (st', evs) ∧
      st'.color_indices = some l := by
  simp only [histSetColorIndices, broadcastCI, hd, hh]
  split
  · exact ⟨_, _, rfl, rfl⟩
  · exact ⟨_, _, rfl, rfl⟩

/-- Setting non-empty data on a Histogram2D holding a colour index array
succeeds and stores the resized, zero-filled array. -/
theorem histSetData_ci (hst : HistState) (cih : List ℚ) (v : List Pt)
    (hvl : ¬ v.length = 0) (hhci : hst.color_indices = some cih) :
    ∃ st' evs, histSetData hst (some v) = .ok (st', evs) ∧
      st'.color_indices =
        some (zeroFillFrom (npResize cih v.length) cih.length) := by
  simp only [histSetData]
  rw [if_neg hvl]
  simp only [hhci]
  simp only [histSetColorIndices, broadcastCI]
  split
  next heq =>
    exfalso
    split at heq <;> simp at heq
  next st3 evs3 heq =>
    refine ⟨_, _, rfl, ?_⟩
    split at heq
    · cases heq
      rfl
    · cases heq
      rfl

/-- C3 (amended): after setting non-empty data of length `N` on an artist
holding a length-`M` colour index array, the array has length `N`, with
positions `M..N-1` zero-filled and the first `min M N` old entries kept —
for Histogram2D always, and for Scatter provided the scatter object
already exists and the artist is not in log normalization with a
continuous colormap (there the zero-filled and non-positive entries are
clamped to `0.01` by the log branch of the setter). -/
theorem claim_C3_color_indices_resize (sst : ScatterState) (hst : HistState)
    (ci cih : List ℚ) (v : List Pt) (hv : v ≠ [])
    (hsci : sst.color_indices = some ci) (hcine : ci ≠ [])
    (hse : sst.scatterExists = true)
    (hnl : sst.categorical = true ∨ sst.normMethod ≠ .log)
    (hhci : hst.color_indices = some cih) (hcihne : cih ≠ []) :
    (∃ st' evs, scatterSetData sst (some v) = .ok (st', evs) ∧
      ∃ l, st'.color_indices = some l ∧ l.length = v.length ∧
        (∀ k d, ci.length ≤ k → k < v.length → l.getD k d = 0) ∧
        (∀ k d, k < ci.length → k < v.length → l.getD k d = ci.getD k d)) ∧
    (∃ st' evs, histSetData hst (some v) = .ok (st', evs) ∧
      ∃ l, st'.color_indices = some l ∧ l.length = v.length ∧
        (∀ k d, cih.length ≤ k → k < v.length → l.getD k d = 0) ∧
        (∀ k d, k < cih.length → k < v.length → l.getD k d = cih.getD k d)) := by
  have hvl : ¬ v.length = 0 := by simpa [List.length_eq_zero] using hv
  constructor
  · simp only [scatterSetData]
    rw [if_neg hvl]
    rw [if_pos (show ({ sst with data := some v } : ScatterState).scatterExists = true from hse)]
    simp only [hsci]
    rw [scatterSetCI_arr_eq]
    have happ := scatterApplyCI_ci { sst with data := some v }
      (zeroFillFrom (npResize ci v.length) ci.length)
      (({ sst with data := some v } : ScatterState).ciIntDtype) hnl
    refine ⟨_, _, rfl, zeroFillFrom (npResize ci v.length) ci.length,
      happ, (resized_spec ci v.length hcine).1,
      (resized_spec ci v.length hcine).2.1,
      (resized_spec ci v.length hcine).2.2⟩
  · obtain ⟨st', evs, heq, hciout⟩ := histSetData_ci hst cih v hvl hhci
    exact ⟨st', evs, heq, zeroFillFrom (npResize cih v.length) cih.length,
      hciout, (resized_spec cih v.length hcihne).1,
      (resized_spec cih v.length hcihne).2.1,
      (resized_spec cih v.length hcihne).2.2⟩

/-- C3 counterexample: on a Scatter artist in log normalization with a
continuous colormap and one stored colour index `[5]`, setting two data
points does not leave `0` at the new position `1` — the log branch of the
colour-indices setter clamps the zero-filled entry in place to `0.01`. -/
theorem claim_C3_counterexample :
    ¬ (∀ st' evs,
        scatterSetData logScatterState
            (some [((0 : ℚ), (0 : ℚ)), ((1 : ℚ), (1 : ℚ))]) = .ok (st', evs) →
        ∀ l, st'.color_indices = some l → ∀ d : ℚ, l.getD 1 d = 0) := by
  intro h
  have heq : scatterSetData logScatterState
      (some [((0 : ℚ), (0 : ℚ)), ((1 : ℚ), (1 : ℚ))]) =
      .ok ({ logScatterState with
              data := some [(0, 0), (1, 1)],
              color_indices := some [5, 1/100] },
           [SEvent.dataChanged, SEvent.warnMsg, SEvent.setFaceColorsCont,
            SEvent.ciChanged, SEvent.drawEv, SEvent.drawEv]) := by
    norm_num [scatterSetData, scatterSetColorIndices, broadcastCI,
      scatterApplyCI, scatterLogAdjust, listMin, npResize, zeroFillFrom,
      logScatterState, List.range_succ]
  have h2 := h _ _ heq [5, 1/100] rfl 0
  norm_num at h2

/-- C3 witness: the amended resize property on the concrete categorical
scatter state with indices `[7, 8]` and the concrete histogram state with
indices `[0]`, extended to three data points. -/
theorem claim_C3_witness :
    (([((0 : ℚ), (0 : ℚ)), (1, 1), (2, 2)] : List Pt) ≠ [] ∧
     catScatterState78.color_indices = some [7, 8] ∧ ([7, 8] : List ℚ) ≠ [] ∧
     catScatterState78.scatterExists = true ∧
     (catScatterState78.categorical = true ∨
       catScatterState78.normMethod ≠ .log) ∧
     baseHistState.color_indices = some [0] ∧ ([0] : List ℚ) ≠ []) ∧
    ((∃ st' evs,
        scatterSetData catScatterState78
            (some [((0 : ℚ), (0 : ℚ)), (1, 1), (2, 2)]) = .ok (st', evs) ∧
        ∃ l, st'.color_indices = some l ∧
          l.length = ([((0 : ℚ), (0 : ℚ)), (1, 1), (2, 2)] : List Pt).length ∧
          (∀ k d, ([7, 8] : List ℚ).length ≤ k →
            k < ([((0 : ℚ), (0 : ℚ)), (1, 1), (2, 2)] : List Pt).length →
            l.getD k d = 0) ∧
          (∀ k d, k < ([7, 8] : List ℚ).length →
            k < ([((0 : ℚ), (0 : ℚ)), (1, 1), (2, 2)] : List Pt).length →
            l.getD k d = ([7, 8] : List ℚ).getD k d)) ∧
     (∃ st' evs,
        histSetData baseHistState
            (some [((0 : ℚ), (0 : ℚ)), (1, 1), (2, 2)]) = .ok (st', evs) ∧
        ∃ l, st'.color_indices = some l ∧
          l.length = ([((0 : ℚ), (0 : ℚ)), (1, 1), (2, 2)] : List Pt).length ∧
          (∀ k d, ([0] : List ℚ).length ≤ k →
            k < ([((0 : ℚ), (0 : ℚ)), (1, 1), (2, 2)] : List Pt).length →
            l.getD k d = 0) ∧
          (∀ k d, k < ([0] : List ℚ).length →
            k < ([((0 : ℚ), (0 : ℚ)), (1, 1), (2, 2)] : List Pt).length →
            l.getD k d = ([0] : List ℚ).getD k d))) :=
  ⟨⟨by simp, rfl, by simp, rfl, Or.inl rfl, rfl, by simp⟩,
   claim_C3_color_indices_resize catScatterState78 baseHistState [7, 8] [0]
     [((0 : ℚ), (0 : ℚ)), (1, 1), (2, 2)] (by simp) rfl (by simp) rfl
     (Or.inl rfl) rfl (by simp)⟩

/-- C2 (amended): when a Histogram2D with a rendered overlay image has
its `color_indices` set, the old overlay image is removed first — before
the replacement is computed and drawn (remove-then-redraw, exactly like
the base counts image): the removal is the first recorded event and any
draw of the new overlay comes strictly after it (and is skipped entirely
when the new statistic grid has no defined cell). -/
theorem claim_C2_overlay_removed_first (st : HistState) (v : CIVal)
    (st' : HistState) (evs : List HEvent) (hov : st.overlayImg = true)
    (hok : histSetColorIndices st v = .ok (st', evs)) :
    evs.get? 0 = some HEvent.removeOverlay ∧
    ∀ m, evs.get? m = some HEvent.drawOverlay → 0 < m := by
  unfold histSetColorIndices at hok
  cases hb : broadcastCI st.data v with
  | none =>
    rw [hb] at hok
    exact absurd hok (by simp)
  | some pr =>
    rw [hb] at hok
    obtain ⟨indices, isInt⟩ := pr
    cases hh : st.hist with
    | none =>
      rw [hh] at hok
      cases hd : st.data with
      | none => rw [hd] at hok; exact absurd hok (by simp)
      | some d => rw [hd] at hok; exact absurd hok (by simp)
    | some rp =>
      obtain ⟨⟨loX, hiX⟩, loY, hiY⟩ := rp
      cases hd : st.data with
      | none =>
        rw [hh, hd] at hok
        exact absurd hok (by simp)
      | some d =>
        rw [hh, hd] at hok
        simp only [hov, if_true] at hok
        split at hok
        · cases hok
          refine ⟨rfl, ?_⟩
          intro m hm
          cases m with
          | zero => simp at hm
          | succ n => exact Nat.succ_pos n
        · cases hok
          refine ⟨rfl, ?_⟩
          intro m hm
          cases m with
          | zero => simp at hm
          | succ n => exact Nat.succ_pos n

/-- C2 counterexample: on the concrete one-bin histogram state with a
rendered overlay, setting `color_indices` removes the overlay image as
the very first action, before the replacement overlay is computed and
drawn — so the replacement is not ready when the removal happens. -/
theorem claim_C2_counterexample :
    ¬ (∀ st' evs,
        histSetColorIndices baseHistState (.arr [1] true) = .ok (st', evs) →
        ∀ k, evs.get? k = some HEvent.removeOverlay →
          ∃ m, m < k ∧ evs.get? m = some HEvent.drawOverlay) := by
  intro h
  have heq : histSetColorIndices baseHistState (.arr [1] true) =
      .ok ({ baseHistState with color_indices := some [1], overlayImg := true },
        [HEvent.removeOverlay, HEvent.drawOverlay, HEvent.ciChanged,
         HEvent.drawIdle]) := by
    norm_num [histSetColorIndices, broadcastCI, baseHistState, binIndexClip,
      digitizeCount, edgeAt, calculate_statistic_histogram, binEntries,
      medianQ, sortQ, insSorted, gridAllNone, List.range_succ]
  obtain ⟨m, hm, -⟩ := h _ _ heq 0 rfl
  exact absurd hm (Nat.not_lt_zero m)

/-- C2 witness: the amended removal-first property on the concrete
one-bin histogram state. -/
theorem claim_C2_witness :
    (baseHistState.overlayImg = true ∧
     histSetColorIndices baseHistState (.arr [2] true) =
       .ok ({ baseHistState with color_indices := some [2], overlayImg := true },
         [HEvent.removeOverlay, HEvent.drawOverlay, HEvent.ciChanged,
          HEvent.drawIdle])) ∧
    ([HEvent.removeOverlay, HEvent.drawOverlay, HEvent.ciChanged,
        HEvent.drawIdle].get? 0 = some HEvent.removeOverlay ∧
     ∀ m, [HEvent.removeOverlay, HEvent.drawOverlay, HEvent.ciChanged,
        HEvent.drawIdle].get? m = some HEvent.drawOverlay → 0 < m) := by
  have heq : histSetColorIndices baseHistState (.arr [2] true) =
      .ok ({ baseHistState with color_indices := some [2], overlayImg := true },
        [HEvent.removeOverlay, HEvent.drawOverlay, HEvent.ciChanged,
         HEvent.drawIdle]) := by
    norm_num [histSetColorIndices, broadcastCI, baseHistState, binIndexClip,
      digitizeCount, edgeAt, calculate_statistic_histogram, binEntries,
      medianQ, sortQ, insSorted, gridAllNone, List.range_succ]
  exact ⟨⟨rfl, heq⟩,
    claim_C2_overlay_removed_first baseHistState (.arr [2] true) _ _ rfl heq⟩
